import Mathlib

/-!
Verification of the Schedulix CPU-scheduling simulator (src/src/core).

The definitions below are a shallow embedding of the JavaScript source:
Process.js, Scheduler.js and the four strategy classes.  JavaScript numbers
holding times and counters are modelled as Int, the ioFrequency probability
as Rat, uuids as Nat, object references as ids resolved in the scheduler's
process store (so aliasing between the queues, the running slot and the
process registry is preserved), and the two uses of Math.random inside a
step as explicit oracle inputs.
-/

/-- Enumeration of process states, from ProcessState in Process.js. -/
inductive PState where
  | NEW
  | READY
  | RUNNING
  | WAITING
  | TERMINATED
deriving DecidableEq, Repr

/-- Scheduling-relevant fields of a Process object (Process.js constructor).
Display-only fields (name, color) are omitted; uuid is modelled as Nat. -/
structure Process where
  pid : Nat
  arrivalTime : Int
  burstTime : Int
  remainingTime : Int
  priority : Int
  queueLevel : Nat
  state : PState
  ioFrequency : Rat
  ioRemaining : Int
  startTime : Option Int
  completionTime : Option Int
  waitingTime : Int
  currentWaitStart : Option Int
  turnaroundTime : Option Int
  responseTime : Option Int
  quantumUsed : Int
deriving DecidableEq, Repr

/-- Constructor configuration for a Process, with the defaults of
Process.js (arrivalTime 0, priority 5, ioFrequency 0). -/
structure ProcConfig where
  arrivalTime : Int := 0
  burstTime : Int
  priority : Int := 5
  ioFrequency : Rat := 0
deriving DecidableEq, Repr

/-- The Process constructor: no validation or clamping is performed in the
source; every field is initialised exactly as in Process.js. -/
def Process.create (pid : Nat) (c : ProcConfig) : Process :=
  { pid := pid
    arrivalTime := c.arrivalTime
    burstTime := c.burstTime
    remainingTime := c.burstTime
    priority := c.priority
    queueLevel := 0
    state := PState.NEW
    ioFrequency := c.ioFrequency
    ioRemaining := 0
    startTime := none
    completionTime := none
    waitingTime := 0
    currentWaitStart := none
    turnaroundTime := none
    responseTime := none
    quantumUsed := 0 }

/-- The validTransitions table of Process.setState. -/
def validTransition : PState → PState → Bool
  | PState.NEW, PState.READY => true
  | PState.READY, PState.RUNNING => true
  | PState.READY, PState.TERMINATED => true
  | PState.RUNNING, PState.READY => true
  | PState.RUNNING, PState.WAITING => true
  | PState.RUNNING, PState.TERMINATED => true
  | PState.WAITING, PState.READY => true
  | _, _ => false

/-- Process.setState: validates the transition against the table; on failure
returns false and leaves the process untouched; on success applies the
per-target side effects and sets the new state.  The returned Bool is the
source's return value. -/
def Process.setState (p : Process) (newState : PState) (t : Int) :
    Bool × Process :=
  if validTransition p.state newState then
    match newState with
    | PState.READY =>
        (true, { p with currentWaitStart := some t, quantumUsed := 0,
                        state := newState })
    | PState.RUNNING =>
        let p1 :=
          match p.currentWaitStart with
          | some w => { p with waitingTime := p.waitingTime + (t - w),
                               currentWaitStart := none }
          | none => p
        if p1.startTime = none then
          (true, { p1 with startTime := some t,
                           responseTime := some (t - p.arrivalTime),
                           state := newState })
        else
          (true, { p1 with state := newState })
    | PState.WAITING =>
        (true, { p with state := newState })
    | PState.TERMINATED =>
        (true, { p with completionTime := some t,
                        turnaroundTime := some (t - p.arrivalTime),
                        remainingTime := 0,
                        state := newState })
    | PState.NEW =>
        (true, { p with state := newState })
  else
    (false, p)

/-- Result record of Process.execute. -/
structure ExecResult where
  timeUsed : Int
  completed : Bool
  ioRequested : Bool
deriving DecidableEq, Repr

/-- Process.execute: runs for min(timeSlice, remainingTime); the Math.random
draw against ioFrequency is supplied as the oracle bit rnd (true means the
drawn value was below ioFrequency). -/
def Process.execute (p : Process) (timeSlice : Int) (rnd : Bool) :
    ExecResult × Process :=
  let actual := min timeSlice p.remainingTime
  let p1 : Process := { p with
    remainingTime := p.remainingTime - actual
    quantumUsed := p.quantumUsed + actual }
  ({ timeUsed := actual
     completed := decide (p1.remainingTime = 0)
     ioRequested := decide (0 < p.ioFrequency) && rnd
                      && decide (0 < p1.remainingTime) }, p1)

/-- Process.startIO. -/
def Process.startIOOp (p : Process) (ioDuration : Int) : Process :=
  { p with ioRemaining := ioDuration }

/-- Process.processIO: decrements ioRemaining (floored at 0) and reports
whether the I/O operation is complete. -/
def Process.tickIOOp (p : Process) (elapsed : Int) : Bool × Process :=
  let r := max 0 (p.ioRemaining - elapsed)
  (r = 0, { p with ioRemaining := r })

/-- Process.demote: moves down one queue level unless already at
maxQueueLevel, zeroing quantumUsed on change. -/
def Process.demote (p : Process) (maxQueueLevel : Nat) : Process :=
  if p.queueLevel < maxQueueLevel then
    { p with queueLevel := p.queueLevel + 1, quantumUsed := 0 }
  else p

/-- Process.promote: moves up one queue level unless already at 0, zeroing
quantumUsed on change. -/
def Process.promote (p : Process) : Process :=
  if 0 < p.queueLevel then
    { p with queueLevel := p.queueLevel - 1, quantumUsed := 0 }
  else p

/-- Process.reset: restores the runtime fields for a fresh simulation run. -/
def Process.resetRun (p : Process) : Process :=
  { p with remainingTime := p.burstTime
           state := PState.NEW
           queueLevel := 0
           startTime := none
           completionTime := none
           waitingTime := 0
           currentWaitStart := none
           turnaroundTime := none
           responseTime := none
           ioRemaining := 0
           quantumUsed := 0 }

/-- Insertion step of a stable sort: the new element is placed after every
existing element it does not strictly precede.  Models one step of the
(stable, ES2019) Array.prototype.sort used by the strategies, with lt a b
meaning the comparator returned a negative value on (a, b). -/
def insAfterEq {α : Type} (lt : α → α → Bool) : List α → α → List α
  | [], a => [a]
  | b :: bs, a => if lt a b then a :: b :: bs else b :: insAfterEq lt bs a

/-- Stable sort by the comparator lt, as performed by Array.prototype.sort
on a copy of the ready queue. -/
def stableSortBy {α : Type} (lt : α → α → Bool) (l : List α) : List α :=
  l.foldl (insAfterEq lt) []

/-- Comparator of FCFSStrategy.selectNext and of the per-level sort in
MLFQStrategy.selectNext: (a, b) maps to a.arrivalTime - b.arrivalTime,
negative exactly when a arrived strictly earlier. -/
def arrivalLt (a b : Process) : Bool :=
  decide (a.arrivalTime < b.arrivalTime)

/-- Comparator of SJFStrategy.selectNext: remaining time ascending, ties
broken by arrival time ascending. -/
def sjfLt (a b : Process) : Bool :=
  if a.remainingTime ≠ b.remainingTime then
    decide (a.remainingTime < b.remainingTime)
  else
    decide (a.arrivalTime < b.arrivalTime)

/-- Math.min over the remaining times of a non-empty ready queue, as in
SJFStrategy.shouldPreempt (the empty case is guarded in the source). -/
def minRemaining : List Process → Int
  | [] => 0
  | p :: ps => ps.foldl (fun m q => min m q.remainingTime) p.remainingTime

/-- The four scheduling strategies with their mutable configuration.  MLFQ
carries numQueues, the quantum list, the boost interval, the (dead, see the
boost theorems) timeSinceLastBoost counter, and the timeQuantum field that
selectNext rewrites; a missing entry of the quantum list is the source's
undefined, modelled as none. -/
inductive Strategy where
  | FCFS
  | SJF (preemptive : Bool)
  | RR (timeQuantum : Int)
  | MLFQ (numQueues : Nat) (quantums : List Int) (boostInterval : Int)
         (timeSinceLastBoost : Int) (timeQuantum : Option Int)
deriving DecidableEq, Repr

/-- The MLFQStrategy constructor: timeSinceLastBoost starts at 0 and
timeQuantum at quantums[0] (undefined when the list is empty). -/
def Strategy.mkMLFQ (numQueues : Nat) (quantums : List Int)
    (boostInterval : Int) : Strategy :=
  Strategy.MLFQ numQueues quantums boostInterval 0 quantums.head?

/-- Accessor for the strategy's timeQuantum field (null for FCFS and SJF). -/
def Strategy.timeQuantum : Strategy → Option Int
  | Strategy.FCFS => none
  | Strategy.SJF _ => none
  | Strategy.RR q => some q
  | Strategy.MLFQ _ _ _ _ tq => tq

/-- Test corresponding to the JavaScript check strategy.name === 'MLFQ'. -/
def Strategy.isMLFQ : Strategy → Bool
  | Strategy.MLFQ _ _ _ _ _ => true
  | _ => false

/-- Bucket of processes belonging to the given MLFQ level: the source pushes
each ready process into queues[min(queueLevel, numQueues - 1)] in order. -/
def mlfqBucket (numQueues : Nat) (rq : List Process) (level : Nat) :
    List Process :=
  rq.filter (fun p => Nat.min p.queueLevel (numQueues - 1) == level)

/-- Scan of the MLFQ levels from 0 upward for the first non-empty bucket,
as in the selection loop of MLFQStrategy.selectNext. -/
def mlfqFirstLevel (numQueues : Nat) (rq : List Process) :
    Option (Nat × List Process) :=
  (List.range numQueues).findSome? fun level =>
    let bucket := mlfqBucket numQueues rq level
    if bucket.isEmpty then none else some (level, bucket)

/-- Strategy.selectNext: returns the selected process (none on an empty
queue) together with the strategy state after the call; only MLFQ mutates
itself, rewriting timeQuantum to the selected level's quantum. -/
def Strategy.selectNext (st : Strategy) (rq : List Process) (_t : Int) :
    Option Process × Strategy :=
  match st with
  | Strategy.FCFS =>
      if rq.isEmpty then (none, st)
      else ((stableSortBy arrivalLt rq).head?, st)
  | Strategy.SJF _ =>
      if rq.isEmpty then (none, st)
      else ((stableSortBy sjfLt rq).head?, st)
  | Strategy.RR _ =>
      if rq.isEmpty then (none, st) else (rq.head?, st)
  | Strategy.MLFQ n qs b tsb _tq =>
      if rq.isEmpty then (none, st)
      else
        match mlfqFirstLevel n rq with
        | none => (none, st)
        | some (level, bucket) =>
            ((stableSortBy arrivalLt bucket).head?,
             Strategy.MLFQ n qs b tsb (qs.get? level))

/-- Truthiness of quantumRemaining <= 0 where none encodes Infinity. -/
def qleZero : Option Int → Bool
  | none => false
  | some q => decide (q ≤ 0)

/-- Strategy.shouldPreempt of the four strategies. -/
def Strategy.shouldPreempt (st : Strategy) (running : Process)
    (rq : List Process) (quantumRemaining : Option Int) : Bool :=
  match st with
  | Strategy.FCFS => false
  | Strategy.SJF preemptive =>
      if !preemptive then false
      else if rq.isEmpty then false
      else decide (minRemaining rq < running.remainingTime)
  | Strategy.RR _ =>
      qleZero quantumRemaining && !rq.isEmpty
  | Strategy.MLFQ _ _ _ _ _ =>
      qleZero quantumRemaining
        || rq.any (fun p => p.queueLevel < running.queueLevel)

/-- MLFQStrategy.performBoost: zeroes the boost timer and forces every
process (without exception) back to level 0 with quantumUsed 0.  Dead code:
no caller exists anywhere in the repository. -/
def mlfqPerformBoost (st : Strategy) (ps : List Process) :
    Strategy × List Process :=
  (match st with
   | Strategy.MLFQ n qs b _ tq => Strategy.MLFQ n qs b 0 tq
   | other => other,
   ps.map fun p => { p with queueLevel := 0, quantumUsed := 0 })

/-- MLFQStrategy.isBoostDue.  Dead code: no caller exists. -/
def mlfqIsBoostDue : Strategy → Bool
  | Strategy.MLFQ _ _ b tsb _ => decide (b ≤ tsb)
  | _ => false

/-- MLFQStrategy.updateTime.  Dead code: no caller exists, so the
timeSinceLastBoost counter is in fact never advanced. -/
def mlfqUpdateTime (st : Strategy) (elapsed : Int) : Strategy :=
  match st with
  | Strategy.MLFQ n qs b tsb tq => Strategy.MLFQ n qs b (tsb + elapsed) tq
  | other => other

/-- Kind of a Gantt chart entry (the type field of the pushed records). -/
inductive GKind where
  | contextSwitch
  | execution (pid : Nat)
  | idle
deriving DecidableEq, Repr

/-- One entry of the ganttChart array (display fields omitted). -/
structure GanttEntry where
  kind : GKind
  startTime : Int
  endTime : Int
deriving DecidableEq, Repr

/-- The metrics record of the Scheduler. -/
structure Metrics where
  totalIdleTime : Int
  totalContextSwitches : Int
  processesCompleted : Int
deriving DecidableEq, Repr

/-- State of a Scheduler object.  JavaScript object references shared
between the processes array, the queues and the running slot are modelled
as pids resolved in the processes store, so that a mutation through one
alias is seen through all of them.  quantumRemaining uses none for the
Infinity assigned when a strategy has no time quantum. -/
@[ext]
structure Sched where
  strategy : Option Strategy
  processes : List Process
  readyQueue : List Nat
  waitingQueue : List Nat
  runningProcess : Option Nat
  completedProcesses : List Nat
  currentTime : Int
  isRunning : Bool
  contextSwitchOverhead : Int
  isContextSwitching : Bool
  ganttChart : List GanttEntry
  metrics : Metrics
  quantumRemaining : Option Int
deriving DecidableEq, Repr

/-- The Scheduler constructor state (strategy defaults to null). -/
def Sched.start : Sched :=
  { strategy := none
    processes := []
    readyQueue := []
    waitingQueue := []
    runningProcess := none
    completedProcesses := []
    currentTime := 0
    isRunning := false
    contextSwitchOverhead := 1
    isContextSwitching := false
    ganttChart := []
    metrics := { totalIdleTime := 0, totalContextSwitches := 0,
                 processesCompleted := 0 }
    quantumRemaining := some 0 }

/-- Resolution of a process reference in the store. -/
def findProc (ps : List Process) (i : Nat) : Option Process :=
  ps.find? fun p => p.pid == i

/-- Mutation of the process object with the given pid, seen by every alias
holding a reference to it. -/
def updProc (ps : List Process) (i : Nat) (f : Process → Process) :
    List Process :=
  ps.map fun p => if p.pid == i then f p else p

/-- JavaScript  x || Infinity  applied to a timeQuantum (null and 0 are
falsy and give Infinity, encoded as none). -/
def orInf : Option Int → Option Int
  | none => none
  | some q => if q == 0 then none else some q

/-- Scheduler.setStrategy: installs the strategy and, when its timeQuantum
is truthy, resets quantumRemaining to it. -/
def Sched.setStrategy (s : Sched) (st : Strategy) : Sched :=
  let s1 : Sched := { s with strategy := some st }
  match st.timeQuantum with
  | some q => if q == 0 then s1 else { s1 with quantumRemaining := some q }
  | none => s1

/-- Scheduler.admitProcess: a NEW process is set READY, appended to the
ready queue and, under MLFQ, reassigned to level 0 by onProcessAdmit. -/
def Sched.admitOne (s : Sched) (i : Nat) : Sched :=
  match findProc s.processes i with
  | none => s
  | some p =>
    if p.state == PState.NEW then
      let s1 : Sched := { s with
        processes :=
          updProc s.processes i fun q => (q.setState PState.READY s.currentTime).2
        readyQueue := s.readyQueue ++ [i] }
      match s1.strategy with
      | some st =>
          if st.isMLFQ then
            { s1 with processes := updProc s1.processes i fun q =>
                { q with queueLevel := 0, quantumUsed := 0 } }
          else s1
      | none => s1
    else s

/-- Scheduler.checkArrivals: scans the processes array in order and admits
every NEW process whose arrival time has been reached. -/
def Sched.checkArrivals (s : Sched) : Sched :=
  (s.processes.map Process.pid).foldl
    (fun acc i =>
      match findProc acc.processes i with
      | some p =>
          if p.state == PState.NEW && decide (p.arrivalTime ≤ acc.currentTime)
          then acc.admitOne i else acc
      | none => acc)
    s

/-- Scheduler.addProcess: appends the process and admits it immediately when
it has already arrived. -/
def Sched.addProcess (s : Sched) (p : Process) : Sched :=
  let s1 : Sched := { s with processes := s.processes ++ [p] }
  if p.arrivalTime ≤ s.currentTime then s1.admitOne p.pid else s1

/-- Scheduler.killProcess: filters the pid out of both queues, terminates
and clears the running slot when it was the victim, then pushes the process
onto completedProcesses if (and only if) its state is still not TERMINATED,
attempting the TERMINATED transition on it. -/
def Sched.killProcess (s : Sched) (i : Nat) : Sched :=
  let s1 : Sched := { s with
    readyQueue := s.readyQueue.filter fun j => j != i
    waitingQueue := s.waitingQueue.filter fun j => j != i }
  let s2 : Sched :=
    if s1.runningProcess == some i then
      { s1 with
        processes := updProc s1.processes i fun p =>
          (p.setState PState.TERMINATED s1.currentTime).2
        runningProcess := none }
    else s1
  match findProc s2.processes i with
  | some p =>
      if p.state != PState.TERMINATED then
        { s2 with
          processes := updProc s2.processes i fun q =>
            (q.setState PState.TERMINATED s2.currentTime).2
          completedProcesses := s2.completedProcesses ++ [i] }
      else s2
  | none => s2

/-- Scheduler.injectIOInterrupt: moves the running process to WAITING,
starts its I/O, promotes it under MLFQ, appends it to the waiting queue and
frees the CPU; a no-op when nothing runs. -/
def Sched.injectIOInterrupt (s : Sched) (ioDuration : Int) : Sched :=
  match s.runningProcess with
  | none => s
  | some i =>
    let s1 : Sched := { s with
      processes := updProc s.processes i fun p =>
        ((p.setState PState.WAITING s.currentTime).2.startIOOp ioDuration) }
    let s2 : Sched :=
      match s1.strategy with
      | some st =>
          if st.isMLFQ then
            { s1 with processes := updProc s1.processes i Process.promote }
          else s1
      | none => s1
    { s2 with waitingQueue := s2.waitingQueue ++ [i], runningProcess := none }

/-- Scheduler.performContextSwitch: counts the switch, records the overhead
slot in the Gantt chart and advances the clock by the overhead
(isContextSwitching is toggled on and back off within the call). -/
def Sched.performContextSwitch (s : Sched) : Sched :=
  { s with
    metrics := { s.metrics with
      totalContextSwitches := s.metrics.totalContextSwitches + 1 }
    ganttChart := s.ganttChart ++
      [{ kind := GKind.contextSwitch
         startTime := s.currentTime
         endTime := s.currentTime + s.contextSwitchOverhead }]
    currentTime := s.currentTime + s.contextSwitchOverhead }

/-- Scheduler.checkIOCompletions: ticks the I/O of every waiting process by
one unit, then moves those whose I/O finished back to READY in queue
order. -/
def Sched.checkIOCompletions (s : Sched) : Sched :=
  let s1 : Sched := { s with
    processes := s.waitingQueue.foldl
      (fun ps i => updProc ps i fun p => (p.tickIOOp 1).2) s.processes }
  let completedIds := s.waitingQueue.filter fun i =>
    match findProc s1.processes i with
    | some p => p.ioRemaining == 0
    | none => false
  completedIds.foldl
    (fun acc i =>
      { acc with
        waitingQueue := acc.waitingQueue.filter fun j => j != i
        processes := updProc acc.processes i fun p =>
          (p.setState PState.READY acc.currentTime).2
        readyQueue := acc.readyQueue ++ [i] })
    s1

/-- Dispatch phase of Scheduler.step: when the CPU is free and the ready
queue non-empty, asks the strategy for the next process, removes it from
the ready queue, performs the context switch, starts it RUNNING at the
post-switch time and reloads quantumRemaining from the strategy's (possibly
just rewritten) timeQuantum. -/
def Sched.dispatch (s : Sched) : Sched :=
  if s.runningProcess == none && !s.readyQueue.isEmpty then
    match s.strategy with
    | none => s
    | some st =>
      let rqProcs := s.readyQueue.filterMap (findProc s.processes)
      match st.selectNext rqProcs s.currentTime with
      | (none, st1) => { s with strategy := some st1 }
      | (some p, st1) =>
        let s1 : Sched := { s with
          strategy := some st1
          readyQueue := s.readyQueue.filter fun j => j != p.pid }
        let s2 := s1.performContextSwitch
        let s3 : Sched := { s2 with
          runningProcess := some p.pid
          processes := updProc s2.processes p.pid fun q =>
            (q.setState PState.RUNNING s2.currentTime).2 }
        { s3 with quantumRemaining := orInf st1.timeQuantum }
  else s

/-- Scheduler.handlePreemption: demotes the running process (hard cap 2,
the engine assumes three queues) when an MLFQ quantum expired, then
requeues it READY at the back of the ready queue and frees the CPU. -/
def Sched.handlePreemption (s : Sched) : Sched :=
  match s.runningProcess with
  | none => s
  | some i =>
    let s1 : Sched :=
      match s.strategy with
      | some st =>
          if st.isMLFQ && qleZero s.quantumRemaining then
            { s with processes := updProc s.processes i fun p => p.demote 2 }
          else s
      | none => s
    let s2 : Sched := { s1 with
      processes := updProc s1.processes i fun p =>
        (p.setState PState.READY s1.currentTime).2 }
    { s2 with readyQueue := s2.readyQueue ++ [i], runningProcess := none }

/-- Random draws consumed by one step: ioRand is the comparison of
Math.random() against ioFrequency inside Process.execute, ioDur the random
I/O duration 3 + floor(Math.random() * 5). -/
structure StepOracle where
  ioRand : Bool
  ioDur : Int
deriving DecidableEq, Repr

/-- Completion branch of the execution phase: the finished process is moved
to TERMINATED, appended to completedProcesses, counted, and the CPU is
freed. -/
def Sched.completeRunning (s : Sched) (i : Nat) : Sched :=
  let s4 : Sched := { s with
    processes := updProc s.processes i fun q =>
      (q.setState PState.TERMINATED s.currentTime).2 }
  { s4 with
    completedProcesses := s4.completedProcesses ++ [i]
    metrics := { s4.metrics with
      processesCompleted := s4.metrics.processesCompleted + 1 }
    runningProcess := none }

/-- Preemption check at the end of the execution phase: asks the strategy
whether to preempt the (just executed) running process and lets
handlePreemption act when it says so. -/
def Sched.maybePreempt (s : Sched) (i : Nat) : Sched :=
  match s.strategy, findProc s.processes i with
  | some st, some rp =>
      if st.shouldPreempt rp (s.readyQueue.filterMap (findProc s.processes))
          s.quantumRemaining then
        s.handlePreemption
      else s
  | _, _ => s

/-- Execution phase of Scheduler.step: runs the dispatched process for one
unit and records it, then handles completion, an I/O request, or a
preemption decision; with a free CPU it records an idle unit instead. -/
def Sched.execPhase (s : Sched) (o : StepOracle) : Sched :=
  match s.runningProcess with
  | some i =>
    (match findProc s.processes i with
     | none => s
     | some p =>
       let res := (p.execute 1 o.ioRand).1
       let s2 : Sched := { s with
         processes := updProc s.processes i fun q => (q.execute 1 o.ioRand).2
         ganttChart := s.ganttChart ++
           [{ kind := GKind.execution i
              startTime := s.currentTime
              endTime := s.currentTime + 1 }]
         currentTime := s.currentTime + 1
         quantumRemaining := s.quantumRemaining.map (fun q => q - 1) }
       if res.completed then s2.completeRunning i
       else if res.ioRequested then s2.injectIOInterrupt o.ioDur
       else s2.maybePreempt i)
  | none =>
    { s with
      metrics := { s.metrics with
        totalIdleTime := s.metrics.totalIdleTime + 1 }
      ganttChart := s.ganttChart ++
        [{ kind := GKind.idle
           startTime := s.currentTime
           endTime := s.currentTime + 1 }]
      currentTime := s.currentTime + 1 }

/-- Scheduler.step: throws (leaving the state untouched) without a
strategy; otherwise arrivals, I/O completions, dispatch, then execution. -/
def Sched.step (s : Sched) (o : StepOracle) : Sched :=
  match s.strategy with
  | none => s
  | some _ => (s.checkArrivals.checkIOCompletions.dispatch).execPhase o

/-- Scheduler.reset: rewinds the clock, clears queues, trace, metrics and
the running slot, resets every process, then re-runs admission for the
processes that have arrived at time 0. -/
def Sched.reset (s : Sched) : Sched :=
  Sched.checkArrivals { s with
    currentTime := 0
    isRunning := false
    isContextSwitching := false
    runningProcess := none
    readyQueue := []
    waitingQueue := []
    completedProcesses := []
    ganttChart := []
    quantumRemaining := some 0
    metrics := { totalIdleTime := 0, totalContextSwitches := 0,
                 processesCompleted := 0 }
    processes := s.processes.map Process.resetRun }

/-- Scheduler.clear: drops every process, then resets. -/
def Sched.clear (s : Sched) : Sched :=
  Sched.reset { s with processes := [] }

/-- States reachable from a fresh Scheduler by the public engine
operations (processes are only ever added through the Process
constructor). -/
inductive Reachable : Sched → Prop where
  | start : Reachable Sched.start
  | addProcess (s : Sched) (i : Nat) (c : ProcConfig) :
      Reachable s → Reachable (s.addProcess (Process.create i c))
  | setStrategy (s : Sched) (st : Strategy) :
      Reachable s → Reachable (s.setStrategy st)
  | step (s : Sched) (o : StepOracle) :
      Reachable s → Reachable (s.step o)
  | killProcess (s : Sched) (i : Nat) :
      Reachable s → Reachable (s.killProcess i)
  | injectIOInterrupt (s : Sched) (d : Int) :
      Reachable s → Reachable (s.injectIOInterrupt d)
  | reset (s : Sched) : Reachable s → Reachable s.reset
  | clear (s : Sched) : Reachable s → Reachable s.clear

/-- Duration a Gantt entry is supposed to cover: the context-switch
overhead for context-switch entries, one time unit otherwise. -/
def ganttDur (overhead : Int) (e : GanttEntry) : Int :=
  match e.kind with
  | GKind.contextSwitch => overhead
  | _ => 1

/-- Traversal of a Gantt chart checking that it tiles the timeline without
gaps or overlaps starting at t; returns the end of the covered interval. -/
def chainFrom (overhead : Int) (t : Int) : List GanttEntry → Option Int
  | [] => some t
  | e :: es =>
      if e.startTime = t ∧ e.endTime = t + ganttDur overhead e then
        chainFrom overhead e.endTime es
      else none

/-- Invariant: the Gantt chart tiles exactly the interval from 0 to the
current simulated time. -/
def ganttInv (s : Sched) : Prop :=
  chainFrom s.contextSwitchOverhead 0 s.ganttChart = some s.currentTime

/-- Projection to timeSinceLastBoost of an installed MLFQ strategy. -/
def stratTslb : Option Strategy → Option Int
  | some (Strategy.MLFQ _ _ _ tsb _) => some tsb
  | _ => none

/-- State of a process looked up by pid. -/
def stateOf (s : Sched) (i : Nat) : Option PState :=
  (findProc s.processes i).map Process.state

/-- Queue level of a process looked up by pid. -/
def levelOf (s : Sched) (i : Nat) : Option Nat :=
  (findProc s.processes i).map Process.queueLevel

/-- Iterated steps with a fixed oracle. -/
def stepN (s : Sched) (o : StepOracle) : Nat → Sched
  | 0 => s
  | n + 1 => stepN (s.step o) o n

/-- Oracle on which the running process never requests I/O. -/
def quietOracle : StepOracle := { ioRand := false, ioDur := 0 }

/-- A sequence of setState calls applied in order to a process. -/
def applySetStates (p : Process) : List (PState × Int) → Process
  | [] => p
  | (st, t) :: tr => applySetStates (p.setState st t).2 tr

/-- Time of the first setState call of the sequence that successfully moves
the process into RUNNING. -/
def firstRunTime (p : Process) : List (PState × Int) → Option Int
  | [] => none
  | (st, t) :: tr =>
      let r := p.setState st t
      if r.1 && (st == PState.RUNNING) then some t else firstRunTime r.2 tr

/-- Transition table exactly as the specification claim words it: NEW to
READY; READY to RUNNING or TERMINATED; RUNNING to READY, WAITING or
TERMINATED; WAITING to READY; TERMINATED to nothing. -/
def claimedTransitionTable : PState → PState → Bool
  | PState.NEW, b => b == PState.READY
  | PState.READY, b => b == PState.RUNNING || b == PState.TERMINATED
  | PState.RUNNING, b =>
      b == PState.READY || b == PState.WAITING || b == PState.TERMINATED
  | PState.WAITING, b => b == PState.READY
  | PState.TERMINATED, _ => false

/-- Scenario for the boost claim: MLFQ with three levels, unit quanta and a
boost interval of 2 time units, driving a single CPU-bound process. -/
def boostScenario : Sched :=
  stepN
    ((Sched.start.setStrategy (Strategy.mkMLFQ 3 [1, 1, 1] 2)).addProcess
      (Process.create 1 { burstTime := 10 }))
    quietOracle 6

/-- Scenario for the kill claim: FCFS with a single process that has just
been dispatched and executed one unit, hence is RUNNING. -/
def runningScenario : Sched :=
  ((Sched.start.setStrategy Strategy.FCFS).addProcess
    (Process.create 1 { burstTime := 5 })).step quietOracle

/-- Scenario for the demotion-cap claim: MLFQ configured with two levels
and unit quanta, driving a single CPU-bound process. -/
def twoLevelScenario : Sched :=
  stepN
    ((Sched.start.setStrategy (Strategy.mkMLFQ 2 [1, 1] 50)).addProcess
      (Process.create 1 { burstTime := 10 }))
    quietOracle 2

/-- Concrete RUNNING process at queue level 1 used as a witness input. -/
def pW : Process :=
  { Process.create 1 { burstTime := 5 } with
      state := PState.RUNNING
      queueLevel := 1 }

/-- Concrete scheduler state holding pW running under a three-level MLFQ
with its quantum just expired, used as a witness input. -/
def capWitnessState : Sched :=
  { Sched.start with
      strategy := some (Strategy.MLFQ 3 [4, 8, 16] 50 0 (some 4))
      processes := [pW]
      runningProcess := some 1
      quantumRemaining := some 0 }

/-- Concrete two-element ready queue used as a witness input. -/
def rqW : List Process :=
  [Process.create 1 { burstTime := 5 },
   Process.create 2 { arrivalTime := 1, burstTime := 3 }]

section SortLemmas

variable {α : Type} {lt : α → α → Bool}

theorem mem_insAfterEq {x a : α} :
    ∀ {l : List α}, x ∈ insAfterEq lt l a ↔ x ∈ l ∨ x = a := by
  intro l
  induction l with
  | nil => simp [insAfterEq]
  | cons b bs ih =>
      by_cases h : lt a b = true
      · simp [insAfterEq, h, List.mem_cons]
        tauto
      · simp only [insAfterEq, h, if_neg, Bool.not_eq_true] at *
        simp [List.mem_cons, ih]
        tauto

theorem length_insAfterEq (a : α) :
    ∀ (l : List α), (insAfterEq lt l a).length = l.length + 1 := by
  intro l
  induction l with
  | nil => rfl
  | cons b bs ih =>
      by_cases h : lt a b = true <;> simp [insAfterEq, h, ih]

theorem mem_foldl_insAfterEq {x : α} :
    ∀ (l acc : List α),
      x ∈ l.foldl (insAfterEq lt) acc ↔ x ∈ acc ∨ x ∈ l := by
  intro l
  induction l with
  | nil => simp
  | cons b bs ih =>
      intro acc
      simp only [List.foldl_cons, ih, mem_insAfterEq, List.mem_cons]
      tauto

theorem mem_stableSortBy {x : α} {l : List α} :
    x ∈ stableSortBy lt l ↔ x ∈ l := by
  simp [stableSortBy, mem_foldl_insAfterEq]

theorem length_foldl_insAfterEq :
    ∀ (l acc : List α),
      (l.foldl (insAfterEq lt) acc).length = acc.length + l.length := by
  intro l
  induction l with
  | nil => simp
  | cons b bs ih =>
      intro acc
      simp [List.foldl_cons, ih, length_insAfterEq]
      omega

theorem length_stableSortBy (l : List α) :
    (stableSortBy lt l).length = l.length := by
  simp [stableSortBy, length_foldl_insAfterEq]

theorem stableSortBy_ne_nil {l : List α} (h : l ≠ []) :
    stableSortBy lt l ≠ [] := by
  intro hc
  apply h
  have := @length_stableSortBy _ lt l
  rw [hc] at this
  exact List.length_eq_zero.mp this.symm

end SortLemmas

theorem minRemaining_lt_iff {x : Int} :
    ∀ {rq : List Process}, rq ≠ [] →
      (minRemaining rq < x ↔ ∃ p ∈ rq, p.remainingTime < x) := by
  have key : ∀ (ps : List Process) (a : Int),
      (ps.foldl (fun m q => min m q.remainingTime) a < x
        ↔ a < x ∨ ∃ q ∈ ps, q.remainingTime < x) := by
    intro ps
    induction ps with
    | nil => simp
    | cons q qs ih =>
        intro a
        simp only [List.foldl_cons, ih, min_lt_iff, List.mem_cons]
        constructor
        · rintro (⟨h | h⟩ | ⟨r, hr, hx⟩)
          · exact Or.inl h
          · exact Or.inr ⟨q, Or.inl rfl, h⟩
          · exact Or.inr ⟨r, Or.inr hr, hx⟩
        · rintro (h | ⟨r, (rfl | hr), hx⟩)
          · exact Or.inl (Or.inl h)
          · exact Or.inl (Or.inr hx)
          · exact Or.inr ⟨r, hr, hx⟩
  intro rq h
  match rq with
  | [] => exact absurd rfl h
  | p :: ps =>
      simp only [minRemaining, key, List.mem_cons]
      constructor
      · rintro (h | ⟨r, hr, hx⟩)
        · exact ⟨p, Or.inl rfl, h⟩
        · exact ⟨r, Or.inr hr, hx⟩
      · rintro ⟨r, (rfl | hr), hx⟩
        · exact Or.inl hx
        · exact Or.inr ⟨r, hr, hx⟩

/-- Claim C3 counterexample: constructing a Process with burstTime 0 and
ioFrequency 2 raises no error at all: the object is produced in state NEW,
and the out-of-range ioFrequency is stored unclamped (2, outside the unit
interval), refuting both the InvalidConfiguration failure and the clamp. -/
theorem process_create_unvalidated_cex :
    (Process.create 1 { burstTime := 0, ioFrequency := 2 }).state = PState.NEW
    ∧ (Process.create 1 { burstTime := 0, ioFrequency := 2 }).remainingTime
        = 0
    ∧ (Process.create 1 { burstTime := 0, ioFrequency := 2 }).ioFrequency = 2
    ∧ ¬ (Process.create 1 { burstTime := 0, ioFrequency := 2 }).ioFrequency
          ≤ 1 := by
  refine ⟨rfl, rfl, rfl, by decide⟩

/-- Claim C3 amended: Process construction performs no validation and no
clamping; for every configuration (valid or not) it succeeds, with state
NEW, remainingTime equal to burstTime, and every supplied field, including
an out-of-range ioFrequency, stored verbatim. -/
theorem process_create_total (i : Nat) (c : ProcConfig) :
    (Process.create i c).state = PState.NEW
    ∧ (Process.create i c).remainingTime = c.burstTime
    ∧ (Process.create i c).burstTime = c.burstTime
    ∧ (Process.create i c).arrivalTime = c.arrivalTime
    ∧ (Process.create i c).priority = c.priority
    ∧ (Process.create i c).ioFrequency = c.ioFrequency
    ∧ (Process.create i c).startTime = none
    ∧ (Process.create i c).responseTime = none
    ∧ (Process.create i c).completionTime = none
    ∧ (Process.create i c).waitingTime = 0
    ∧ (Process.create i c).quantumUsed = 0 :=
  ⟨rfl, rfl, rfl, rfl, rfl, rfl, rfl, rfl, rfl, rfl, rfl⟩

/-- Claim C4: a setState call succeeds exactly when the requested
transition is in the fixed table of the specification, and a rejected
transition leaves the process (every field) unchanged. -/
theorem setState_table_and_frame (p : Process) (ns : PState) (t : Int) :
    ((p.setState ns t).1 = true ↔ claimedTransitionTable p.state ns = true)
    ∧ ((p.setState ns t).1 = false → (p.setState ns t).2 = p) := by
  have htab : ∀ a b, validTransition a b = claimedTransitionTable a b := by
    intro a b
    cases a <;> cases b <;> rfl
  have hflag : (p.setState ns t).1 = validTransition p.state ns := by
    unfold Process.setState
    by_cases h : validTransition p.state ns = true
    · rw [if_pos h]
      cases ns
      all_goals try exact h.symm
      dsimp only
      split <;> exact h.symm
    · rw [if_neg h]
      simp only [Bool.not_eq_true] at h
      exact h.symm
  constructor
  · rw [hflag, htab]
  · intro hfail
    rw [hflag] at hfail
    unfold Process.setState
    simp [hfail]

theorem head?_stableSortBy_mem {α : Type} {lt : α → α → Bool} {l : List α}
    {p : α} (h : (stableSortBy lt l).head? = some p) : p ∈ l := by
  apply (@mem_stableSortBy _ lt _ _).mp
  cases hs : stableSortBy lt l with
  | nil => rw [hs] at h; cases h
  | cons a as =>
      rw [hs] at h
      cases h
      exact List.mem_cons_self _ _

theorem head?_stableSortBy_isSome {α : Type} {lt : α → α → Bool}
    {l : List α} (h : l ≠ []) : ∃ p, (stableSortBy lt l).head? = some p := by
  cases hs : stableSortBy lt l with
  | nil => exact absurd hs (stableSortBy_ne_nil h)
  | cons a as => exact ⟨a, rfl⟩

theorem mem_mlfqBucket {n : Nat} {rq : List Process} {lvl : Nat}
    {p : Process} (h : p ∈ mlfqBucket n rq lvl) : p ∈ rq :=
  List.mem_of_mem_filter h

theorem mlfqFirstLevel_eq_some {n : Nat} {rq : List Process} {lvl : Nat}
    {bucket : List Process}
    (h : mlfqFirstLevel n rq = some (lvl, bucket)) :
    bucket = mlfqBucket n rq lvl ∧ bucket ≠ [] := by
  unfold mlfqFirstLevel at h
  obtain ⟨l1, a, l2, _, ha, _⟩ := List.findSome?_eq_some_iff.mp h
  by_cases hb : (mlfqBucket n rq a).isEmpty
  · simp [hb] at ha
  · simp only [hb, if_neg, Bool.false_eq_true, not_false_iff, if_false,
      Option.some.injEq, Prod.mk.injEq] at ha
    obtain ⟨rfl, rfl⟩ := ha
    refine ⟨rfl, ?_⟩
    intro hc
    rw [hc] at hb
    exact hb rfl

theorem mlfqFirstLevel_ne_none {n : Nat} {rq : List Process} (hn : 0 < n)
    (hne : rq ≠ []) : mlfqFirstLevel n rq ≠ none := by
  intro h
  match rq, hne with
  | hd :: tl, _ =>
    have hall := List.findSome?_eq_none_iff.mp h
    have hlvl : Nat.min hd.queueLevel (n - 1) ∈ List.range n := by
      rw [List.mem_range]
      exact lt_of_le_of_lt (Nat.min_le_right _ _) (by omega)
    have := hall _ hlvl
    have hmem : hd ∈ mlfqBucket n (hd :: tl) (Nat.min hd.queueLevel (n - 1)) := by
      unfold mlfqBucket
      apply List.mem_filter.mpr
      exact ⟨List.mem_cons_self _ _, by simp⟩
    by_cases hb :
        (mlfqBucket n (hd :: tl) (Nat.min hd.queueLevel (n - 1))).isEmpty
    · rw [List.isEmpty_iff] at hb
      rw [hb] at hmem
      cases hmem
    · simp [hb] at this

/-- Claim C8: for each of the four policies, selectNext is read-only
selection: it returns none exactly on an empty ready queue and otherwise
returns one of the queue's elements verbatim (no process field is
modified); the strategy object itself is returned unchanged, except that
MLFQ rewrites only its own timeQuantum field.  In this purely functional
embedding of the source (which sorts only fresh copies of the queue) the
queue itself is untouched by construction. -/
theorem strategies_select_readonly (rq : List Process) (t : Int) (b : Bool)
    (q : Int) (n : Nat) (qs : List Int) (bi tsb : Int) (tq : Option Int)
    (hn : 0 < n) :
    (((Strategy.FCFS.selectNext rq t).1 = none ↔ rq = [])
      ∧ (∀ p, (Strategy.FCFS.selectNext rq t).1 = some p → p ∈ rq)
      ∧ (Strategy.FCFS.selectNext rq t).2 = Strategy.FCFS)
    ∧ ((((Strategy.SJF b).selectNext rq t).1 = none ↔ rq = [])
      ∧ (∀ p, ((Strategy.SJF b).selectNext rq t).1 = some p → p ∈ rq)
      ∧ ((Strategy.SJF b).selectNext rq t).2 = Strategy.SJF b)
    ∧ ((((Strategy.RR q).selectNext rq t).1 = none ↔ rq = [])
      ∧ (∀ p, ((Strategy.RR q).selectNext rq t).1 = some p → p ∈ rq)
      ∧ ((Strategy.RR q).selectNext rq t).2 = Strategy.RR q)
    ∧ ((((Strategy.MLFQ n qs bi tsb tq).selectNext rq t).1 = none ↔ rq = [])
      ∧ (∀ p, ((Strategy.MLFQ n qs bi tsb tq).selectNext rq t).1 = some p
            → p ∈ rq)
      ∧ (∃ tq2, ((Strategy.MLFQ n qs bi tsb tq).selectNext rq t).2
            = Strategy.MLFQ n qs bi tsb tq2)) := by
  by_cases he : rq.isEmpty
  · have hrq : rq = [] := List.isEmpty_iff.mp he
    subst hrq
    refine ⟨⟨by simp [Strategy.selectNext], ?_, rfl⟩,
            ⟨by simp [Strategy.selectNext], ?_, rfl⟩,
            ⟨by simp [Strategy.selectNext], ?_, rfl⟩,
            ⟨by simp [Strategy.selectNext], ?_, ⟨tq, rfl⟩⟩⟩
    all_goals intro p hp
    all_goals simp [Strategy.selectNext] at hp
  · have hne : rq ≠ [] := by
      intro hc; rw [hc] at he; exact he rfl
    have hsel : ∀ lt : Process → Process → Bool,
        (∃ p, (stableSortBy lt rq).head? = some p)
        ∧ ∀ p, (stableSortBy lt rq).head? = some p → p ∈ rq :=
      fun lt => ⟨head?_stableSortBy_isSome hne, fun _ h =>
        head?_stableSortBy_mem h⟩
    refine ⟨⟨?_, ?_, ?_⟩, ⟨?_, ?_, ?_⟩, ⟨?_, ?_, ?_⟩, ⟨?_, ?_, ?_⟩⟩
    · simp only [Strategy.selectNext, he, Bool.false_eq_true, if_false]
      obtain ⟨⟨p, hp⟩, _⟩ := hsel arrivalLt
      simp [hp, hne]
    · intro p hp
      simp only [Strategy.selectNext, he, Bool.false_eq_true, if_false]
        at hp
      exact head?_stableSortBy_mem hp
    · simp [Strategy.selectNext, he]
    · simp only [Strategy.selectNext, he, Bool.false_eq_true, if_false]
      obtain ⟨⟨p, hp⟩, _⟩ := hsel sjfLt
      simp [hp, hne]
    · intro p hp
      simp only [Strategy.selectNext, he, Bool.false_eq_true, if_false]
        at hp
      exact head?_stableSortBy_mem hp
    · simp [Strategy.selectNext, he]
    · simp only [Strategy.selectNext, he, Bool.false_eq_true, if_false]
      match rq, hne with
      | hd :: tl, _ => simp [hne]
    · intro p hp
      simp only [Strategy.selectNext, he, Bool.false_eq_true, if_false]
        at hp
      match rq, hp with
      | hd :: tl, hp =>
        simp only [List.head?] at hp
        cases hp
        exact List.mem_cons_self _ _
    · simp [Strategy.selectNext, he]
    · simp only [Strategy.selectNext, he, Bool.false_eq_true, if_false]
      cases hf : mlfqFirstLevel n rq with
      | none => exact absurd hf (mlfqFirstLevel_ne_none hn hne)
      | some lb =>
          obtain ⟨lvl, bucket⟩ := lb
          obtain ⟨_, hbne⟩ := mlfqFirstLevel_eq_some hf
          obtain ⟨p, hp⟩ := @head?_stableSortBy_isSome _ arrivalLt _ hbne
          simp [hp, hne]
    · intro p hp
      simp only [Strategy.selectNext, he, Bool.false_eq_true, if_false]
        at hp
      cases hf : mlfqFirstLevel n rq with
      | none => exact absurd hf (mlfqFirstLevel_ne_none hn hne)
      | some lb =>
          obtain ⟨lvl, bucket⟩ := lb
          rw [hf] at hp
          obtain ⟨hbe, _⟩ := mlfqFirstLevel_eq_some hf
          have := head?_stableSortBy_mem hp
          rw [hbe] at this
          exact mem_mlfqBucket this
    · simp only [Strategy.selectNext, he, Bool.false_eq_true, if_false]
      cases hf : mlfqFirstLevel n rq with
      | none => exact absurd hf (mlfqFirstLevel_ne_none hn hne)
      | some lb =>
          obtain ⟨lvl, bucket⟩ := lb
          exact ⟨qs.get? lvl, rfl⟩

/-- Witness for claim C8 at a concrete two-element ready queue and the
default MLFQ configuration. -/
theorem strategies_select_readonly_witness :
    (0 : Nat) < 3
    ∧ ((((Strategy.FCFS.selectNext rqW 0).1 = none ↔ rqW = [])
      ∧ (∀ p, (Strategy.FCFS.selectNext rqW 0).1 = some p → p ∈ rqW)
      ∧ (Strategy.FCFS.selectNext rqW 0).2 = Strategy.FCFS)
    ∧ ((((Strategy.SJF true).selectNext rqW 0).1 = none ↔ rqW = [])
      ∧ (∀ p, ((Strategy.SJF true).selectNext rqW 0).1 = some p → p ∈ rqW)
      ∧ ((Strategy.SJF true).selectNext rqW 0).2 = Strategy.SJF true)
    ∧ ((((Strategy.RR 4).selectNext rqW 0).1 = none ↔ rqW = [])
      ∧ (∀ p, ((Strategy.RR 4).selectNext rqW 0).1 = some p → p ∈ rqW)
      ∧ ((Strategy.RR 4).selectNext rqW 0).2 = Strategy.RR 4)
    ∧ ((((Strategy.MLFQ 3 [4, 8, 16] 50 0 (some 4)).selectNext rqW 0).1
          = none ↔ rqW = [])
      ∧ (∀ p, ((Strategy.MLFQ 3 [4, 8, 16] 50 0 (some 4)).selectNext
            rqW 0).1 = some p → p ∈ rqW)
      ∧ (∃ tq2, ((Strategy.MLFQ 3 [4, 8, 16] 50 0 (some 4)).selectNext
            rqW 0).2 = Strategy.MLFQ 3 [4, 8, 16] 50 0 tq2))) :=
  ⟨by decide, strategies_select_readonly rqW 0 true 4 3 [4, 8, 16] 50 0
    (some 4) (by decide)⟩

theorem setState_arrivalTime (p : Process) (ns : PState) (t : Int) :
    (p.setState ns t).2.arrivalTime = p.arrivalTime := by
  unfold Process.setState
  by_cases hv : validTransition p.state ns = true
  · rw [if_pos hv]
    cases ns
    all_goals try rfl
    all_goals dsimp only
    all_goals cases hw : p.currentWaitStart <;> simp only [hw] <;> split <;> rfl
  · rw [if_neg hv]

theorem setState_frozen (p : Process) (ns : PState) (t : Int) {x : Int}
    (h : p.startTime = some x) :
    (p.setState ns t).2.startTime = p.startTime
    ∧ (p.setState ns t).2.responseTime = p.responseTime := by
  unfold Process.setState
  by_cases hv : validTransition p.state ns = true
  · rw [if_pos hv]
    cases ns
    all_goals try exact ⟨rfl, rfl⟩
    dsimp only
    cases hw : p.currentWaitStart <;> simp only [hw]
    · rw [if_neg (by simp [h])]
      exact ⟨rfl, rfl⟩
    · rw [if_neg (by simp [h])]
      exact ⟨rfl, rfl⟩
  · rw [if_neg hv]
    exact ⟨rfl, rfl⟩

theorem setState_not_running (p : Process) (ns : PState) (t : Int)
    (h : ns ≠ PState.RUNNING) :
    (p.setState ns t).2.startTime = p.startTime
    ∧ (p.setState ns t).2.responseTime = p.responseTime := by
  unfold Process.setState
  by_cases hv : validTransition p.state ns = true
  · rw [if_pos hv]
    cases ns
    all_goals try exact ⟨rfl, rfl⟩
    exact absurd rfl h
  · rw [if_neg hv]
    exact ⟨rfl, rfl⟩

theorem setState_flag (p : Process) (ns : PState) (t : Int) :
    (p.setState ns t).1 = validTransition p.state ns := by
  unfold Process.setState
  by_cases h : validTransition p.state ns = true
  · rw [if_pos h]
    cases ns
    all_goals try exact h.symm
    dsimp only
    split <;> exact h.symm
  · rw [if_neg h]
    simp only [Bool.not_eq_true] at h
    exact h.symm

theorem setState_fail_eq (p : Process) (ns : PState) (t : Int)
    (h : validTransition p.state ns = false) :
    (p.setState ns t).2 = p := by
  unfold Process.setState
  simp [h]

theorem setState_first_running (p : Process) (t : Int)
    (hs : p.startTime = none)
    (hv : validTransition p.state PState.RUNNING = true) :
    (p.setState PState.RUNNING t).2.startTime = some t
    ∧ (p.setState PState.RUNNING t).2.responseTime
        = some (t - p.arrivalTime) := by
  unfold Process.setState
  rw [if_pos hv]
  dsimp only
  cases hw : p.currentWaitStart <;> simp only [hw]
  · rw [if_pos (by simp [hs])]
    exact ⟨rfl, rfl⟩
  · rw [if_pos (by simp [hs])]
    exact ⟨rfl, rfl⟩

theorem applySetStates_frozen {x : Int} :
    ∀ (tr : List (PState × Int)) (p : Process), p.startTime = some x →
      (applySetStates p tr).responseTime = p.responseTime := by
  intro tr
  induction tr with
  | nil => intro p _; rfl
  | cons e tr ih =>
      intro p hp
      obtain ⟨e1, e2⟩ := e
      have h := setState_frozen p e1 e2 hp
      simp only [applySetStates]
      rw [ih _ (h.1.trans hp), h.2]

/-- Claim C5: across any sequence of state transitions applied to a
process whose startTime and responseTime are still unset (as at
construction and after reset), responseTime ends up equal to the time of
the first successful transition into RUNNING minus the arrival time, and
stays none if there is no such transition; in particular later
transitions, preemptions and re-dispatches never modify it. -/
theorem responseTime_assigned_once :
    ∀ (tr : List (PState × Int)) (p : Process),
      p.startTime = none → p.responseTime = none →
      (applySetStates p tr).responseTime
        = (firstRunTime p tr).map (fun u => u - p.arrivalTime) := by
  intro tr
  induction tr with
  | nil =>
      intro p _ hr
      simpa [applySetStates, firstRunTime] using hr
  | cons e tr ih =>
      intro p hs hr
      obtain ⟨e1, e2⟩ := e
      simp only [applySetStates, firstRunTime]
      by_cases hc : ((p.setState e1 e2).1 && (e1 == PState.RUNNING)) = true
      · have he1 : e1 = PState.RUNNING := by
          have := (Bool.and_eq_true _ _).mp hc
          simpa using this.2
        have hok : (p.setState e1 e2).1 = true :=
          ((Bool.and_eq_true _ _).mp hc).1
        subst he1
        have hv : validTransition p.state PState.RUNNING = true := by
          rw [setState_flag] at hok; exact hok
        have hfr := setState_first_running p e2 hs hv
        rw [if_pos hc]
        rw [applySetStates_frozen tr _ hfr.1, hfr.2]
        rfl
      · rw [if_neg hc]
        have hkeep : (p.setState e1 e2).2.startTime = none
            ∧ (p.setState e1 e2).2.responseTime = none := by
          by_cases he1 : e1 = PState.RUNNING
          · subst he1
            have hok : (p.setState PState.RUNNING e2).1 = false := by
              cases hb : (p.setState PState.RUNNING e2).1
              · rfl
              · exact absurd (by simp [hb]) hc
            have hv : validTransition p.state PState.RUNNING = false := by
              rw [setState_flag] at hok; exact hok
            rw [setState_fail_eq p _ e2 hv]
            exact ⟨hs, hr⟩
          · have h := setState_not_running p e1 e2 he1
            rw [h.1, h.2]
            exact ⟨hs, hr⟩
        rw [ih _ hkeep.1 hkeep.2, setState_arrivalTime]

/-- Witness for claim C5 at a concrete process and transition sequence:
admitted at time 0, first dispatched at time 2, preempted at 5 and
re-dispatched at 7, the process ends with responseTime 2 - 0. -/
theorem responseTime_assigned_once_witness :
    (Process.create 1 { burstTime := 5 }).startTime = none
    ∧ (Process.create 1 { burstTime := 5 }).responseTime = none
    ∧ (applySetStates (Process.create 1 { burstTime := 5 })
        [(PState.READY, 0), (PState.RUNNING, 2), (PState.READY, 5),
         (PState.RUNNING, 7)]).responseTime
      = (firstRunTime (Process.create 1 { burstTime := 5 })
          [(PState.READY, 0), (PState.RUNNING, 2), (PState.READY, 5),
           (PState.RUNNING, 7)]).map
          (fun u => u - (Process.create 1 { burstTime := 5 }).arrivalTime) :=
  ⟨rfl, rfl,
    responseTime_assigned_once
      [(PState.READY, 0), (PState.RUNNING, 2), (PState.READY, 5),
       (PState.RUNNING, 7)]
      (Process.create 1 { burstTime := 5 }) rfl rfl⟩

/-- Claim C6: SJF in preemptive (SRTF) mode preempts exactly when some
ready process has strictly smaller remaining time than the running one
(equivalently, the queue is non-empty and its minimum remaining time is
strictly below the running process's); in non-preemptive mode it never
preempts. -/
theorem sjf_shouldPreempt_characterization (r : Process) (rq : List Process)
    (qr : Option Int) :
    ((Strategy.SJF true).shouldPreempt r rq qr = true
        ↔ ∃ p ∈ rq, p.remainingTime < r.remainingTime)
    ∧ (Strategy.SJF false).shouldPreempt r rq qr = false := by
  constructor
  · unfold Strategy.shouldPreempt
    by_cases h : rq.isEmpty
    · have : rq = [] := List.isEmpty_iff.mp h
      subst this
      simp
    · have hne : rq ≠ [] := by
        intro hc; rw [hc] at h; exact h rfl
      simp only [h, Bool.not_true, if_neg, Bool.false_eq_true,
        Bool.not_false, if_false, decide_eq_true_eq]
      simp only [Bool.not_eq_true] at h
      rw [minRemaining_lt_iff hne]
  · rfl

theorem foldl_proj {α β : Type} (g : Sched → β) (f : Sched → α → Sched)
    (hf : ∀ s a, g (f s a) = g s) :
    ∀ (l : List α) (s : Sched), g (l.foldl f s) = g s := by
  intro l
  induction l with
  | nil => intro s; rfl
  | cons a as ih => intro s; rw [List.foldl_cons, ih, hf]

theorem admitOne_strategy (s : Sched) (i : Nat) :
    (s.admitOne i).strategy = s.strategy := by
  unfold Sched.admitOne
  dsimp only
  repeat' split
  all_goals rfl

theorem injectIOInterrupt_strategy (s : Sched) (d : Int) :
    (s.injectIOInterrupt d).strategy = s.strategy := by
  unfold Sched.injectIOInterrupt
  dsimp only
  repeat' split
  all_goals rfl

theorem handlePreemption_strategy (s : Sched) :
    (s.handlePreemption).strategy = s.strategy := by
  unfold Sched.handlePreemption
  dsimp only
  repeat' split
  all_goals rfl

theorem checkArrivals_strategy (s : Sched) :
    (s.checkArrivals).strategy = s.strategy := by
  unfold Sched.checkArrivals
  apply foldl_proj
  intro s' a
  repeat' split
  all_goals try rfl
  all_goals apply admitOne_strategy

theorem checkIOCompletions_strategy (s : Sched) :
    (s.checkIOCompletions).strategy = s.strategy := by
  unfold Sched.checkIOCompletions
  apply foldl_proj Sched.strategy
  intro s' a
  rfl

theorem performContextSwitch_strategy (s : Sched) :
    (s.performContextSwitch).strategy = s.strategy := rfl

theorem selectNext_tslb (st : Strategy) (rq : List Process) (t : Int) :
    stratTslb (some (st.selectNext rq t).2) = stratTslb (some st) := by
  unfold Strategy.selectNext
  cases st <;> dsimp only <;> repeat' split
  all_goals rfl

theorem dispatch_tslb (s : Sched) :
    stratTslb (s.dispatch).strategy = stratTslb s.strategy := by
  unfold Sched.dispatch
  by_cases hc : (s.runningProcess == none && !s.readyQueue.isEmpty) = true
  · rw [if_pos hc]
    cases hst : s.strategy with
    | none => dsimp only; rw [hst]
    | some st =>
        dsimp only
        rcases hsel : st.selectNext (s.readyQueue.filterMap (findProc s.processes)) s.currentTime with ⟨sel, st1⟩
        have h1 : stratTslb (some st1) = stratTslb (some st) := by
          rw [← selectNext_tslb st (s.readyQueue.filterMap (findProc s.processes)) s.currentTime, hsel]
        cases sel <;> simp only [hst] <;> exact h1
  · rw [if_neg hc]

theorem completeRunning_strategy (s : Sched) (i : Nat) :
    (s.completeRunning i).strategy = s.strategy := rfl

theorem maybePreempt_strategy (s : Sched) (i : Nat) :
    (s.maybePreempt i).strategy = s.strategy := by
  unfold Sched.maybePreempt
  repeat' split
  all_goals try rfl
  all_goals apply handlePreemption_strategy

theorem execPhase_strategy (s : Sched) (o : StepOracle) :
    (s.execPhase o).strategy = s.strategy := by
  unfold Sched.execPhase
  cases hr : s.runningProcess with
  | none => rfl
  | some i =>
      dsimp only
      cases hf : findProc s.processes i with
      | none => rfl
      | some p =>
          dsimp only
          repeat' split
          all_goals try rfl
          all_goals try apply injectIOInterrupt_strategy
          all_goals apply maybePreempt_strategy

theorem step_tslb (s : Sched) (o : StepOracle) :
    stratTslb (s.step o).strategy = stratTslb s.strategy := by
  unfold Sched.step
  cases hst : s.strategy with
  | none => dsimp only; rw [hst]
  | some st =>
      dsimp only
      rw [execPhase_strategy, dispatch_tslb, checkIOCompletions_strategy,
        checkArrivals_strategy, hst]

theorem setState_pid (p : Process) (ns : PState) (t : Int) :
    (p.setState ns t).2.pid = p.pid := by
  unfold Process.setState
  by_cases hv : validTransition p.state ns = true
  · rw [if_pos hv]
    cases ns
    all_goals try rfl
    all_goals dsimp only
    all_goals cases hw : p.currentWaitStart <;> simp only [hw] <;> split <;> rfl
  · rw [if_neg hv]

theorem setState_queueLevel (p : Process) (ns : PState) (t : Int) :
    (p.setState ns t).2.queueLevel = p.queueLevel := by
  unfold Process.setState
  by_cases hv : validTransition p.state ns = true
  · rw [if_pos hv]
    cases ns
    all_goals try rfl
    all_goals dsimp only
    all_goals cases hw : p.currentWaitStart <;> simp only [hw] <;> split <;> rfl
  · rw [if_neg hv]

theorem findProc_updProc (ps : List Process) (i : Nat)
    (f : Process → Process) (hf : ∀ q, (f q).pid = q.pid) :
    findProc (updProc ps i f) i = (findProc ps i).map f := by
  induction ps with
  | nil => rfl
  | cons p ps ih =>
      by_cases h : (p.pid == i) = true
      · simp only [updProc, List.map_cons, findProc, List.find?_cons]
        rw [if_pos h]
        have : ((f p).pid == i) = true := by rw [hf]; exact h
        simp [this, h]
      · simp only [updProc, List.map_cons, findProc, List.find?_cons]
        rw [if_neg h]
        simp only [h, Bool.false_eq_true, if_false]
        exact ih

/-- Claim C7 amended part. -/
theorem mlfq_level_change_amended (s : Sched) (i : Nat) (p : Process)
    (d : Int) (n : Nat) (qs : List Int) (b tsb : Int) (tq : Option Int)
    (hst : s.strategy = some (Strategy.MLFQ n qs b tsb tq))
    (hrun : s.runningProcess = some i)
    (hfind : findProc s.processes i = some p) :
    (qleZero s.quantumRemaining = true →
        levelOf s.handlePreemption i
          = some (if p.queueLevel < 2 then p.queueLevel + 1
                  else p.queueLevel))
    ∧ levelOf (s.injectIOInterrupt d) i = some (p.queueLevel - 1) := by
  have hdemote_pid : ∀ q : Process, ((q.demote 2).pid) = q.pid := by
    intro q; unfold Process.demote; split <;> rfl
  have hpromote_pid : ∀ q : Process, (q.promote.pid) = q.pid := by
    intro q; unfold Process.promote; split <;> rfl
  constructor
  · intro hq
    unfold Sched.handlePreemption
    rw [hrun]
    dsimp only
    rw [hst]
    dsimp only [Strategy.isMLFQ]
    rw [hq, if_pos (show ((true : Bool) && true) = true by rfl)]
    unfold levelOf
    dsimp only
    rw [findProc_updProc _ _ _ (fun q => setState_pid q PState.READY _)]
    rw [findProc_updProc _ _ _ hdemote_pid]
    rw [hfind]
    simp only [Option.map_map, Option.map_some', Function.comp_apply]
    congr 1
    rw [setState_queueLevel]
    unfold Process.demote
    split <;> simp_all
  · unfold Sched.injectIOInterrupt
    rw [hrun]
    dsimp only
    rw [hst]
    dsimp only [Strategy.isMLFQ]
    rw [if_pos (show (true : Bool) = true by rfl)]
    unfold levelOf
    dsimp only
    rw [findProc_updProc _ _ _ hpromote_pid]
    rw [findProc_updProc _ _ _ (fun q =>
      show ((q.setState PState.WAITING s.currentTime).2.startIOOp d).pid
          = q.pid from setState_pid q PState.WAITING s.currentTime)]
    rw [hfind]
    simp only [Option.map_map, Option.map_some', Function.comp_apply]
    congr 1
    unfold Process.promote
    have hlvl : ((p.setState PState.WAITING s.currentTime).2.startIOOp
        d).queueLevel = p.queueLevel := by
      rw [Process.startIOOp]
      exact setState_queueLevel p PState.WAITING _
    split <;> (rw [hlvl]; try omega)

/-- Claim C1 (code bug). -/
theorem mlfq_boost_never_triggered :
    (∀ (s : Sched) (o : StepOracle),
        stratTslb (s.step o).strategy = stratTslb s.strategy)
    ∧ boostScenario.currentTime = 12
    ∧ stratTslb boostScenario.strategy = some 0
    ∧ levelOf boostScenario 1 = some 2
    ∧ stateOf boostScenario 1 = some PState.READY :=
  ⟨step_tslb, by decide, by decide, by decide, by decide⟩

/-- Claim C2 (code bug). -/
theorem kill_semantics_divergence :
    stateOf runningScenario 1 = some PState.RUNNING
    ∧ stateOf (runningScenario.killProcess 1) 1 = some PState.TERMINATED
    ∧ (runningScenario.killProcess 1).runningProcess = none
    ∧ (runningScenario.killProcess 1).completedProcesses = []
    ∧ stateOf (runningScenario.injectIOInterrupt 5) 1 = some PState.WAITING
    ∧ stateOf ((runningScenario.injectIOInterrupt 5).killProcess 1) 1
        = some PState.WAITING
    ∧ ((runningScenario.injectIOInterrupt 5).killProcess 1).completedProcesses
        = [1] := by
  refine ⟨by decide, by decide, by decide, by decide, by decide, by decide,
    by decide⟩

/-- Claim C7 counterexample. -/
theorem mlfq_demotion_cap_cex :
    twoLevelScenario.strategy = some (Strategy.MLFQ 2 [1, 1] 50 0 (some 1))
    ∧ levelOf twoLevelScenario 1 = some 2
    ∧ ¬ (2 : Nat) ≤ 2 - 1 := by
  refine ⟨by decide, by decide, by decide⟩

/-- Claim C7 witness: at level 1 under a three-level MLFQ with an expired
quantum, preemption demotes to level 2 and an I/O yield promotes to 0. -/
theorem mlfq_level_change_amended_witness :
    capWitnessState.strategy = some (Strategy.MLFQ 3 [4, 8, 16] 50 0 (some 4))
    ∧ capWitnessState.runningProcess = some 1
    ∧ findProc capWitnessState.processes 1 = some pW
    ∧ qleZero capWitnessState.quantumRemaining = true
    ∧ levelOf capWitnessState.handlePreemption 1
        = some (if pW.queueLevel < 2 then pW.queueLevel + 1
                else pW.queueLevel)
    ∧ levelOf (capWitnessState.injectIOInterrupt 4) 1
        = some (pW.queueLevel - 1) :=
  ⟨rfl, rfl, by decide, by decide,
   (mlfq_level_change_amended capWitnessState 1 pW 4 3 [4, 8, 16] 50 0
      (some 4) rfl rfl (by decide)).1 (by decide),
   (mlfq_level_change_amended capWitnessState 1 pW 4 3 [4, 8, 16] 50 0
      (some 4) rfl rfl (by decide)).2⟩

theorem ganttInv_of_frame {s2 s1 : Sched}
    (hov : s2.contextSwitchOverhead = s1.contextSwitchOverhead)
    (ht : s2.currentTime = s1.currentTime)
    (hg : s2.ganttChart = s1.ganttChart)
    (h : ganttInv s1) : ganttInv s2 := by
  unfold ganttInv at *
  rw [hov, ht, hg]
  exact h

theorem admitOne_frameG (s : Sched) (i : Nat) :
    (s.admitOne i).contextSwitchOverhead = s.contextSwitchOverhead
    ∧ (s.admitOne i).currentTime = s.currentTime
    ∧ (s.admitOne i).ganttChart = s.ganttChart := by
  unfold Sched.admitOne
  dsimp only
  repeat' split
  all_goals exact ⟨rfl, rfl, rfl⟩

theorem checkArrivals_frameG (s : Sched) :
    (s.checkArrivals).contextSwitchOverhead = s.contextSwitchOverhead
    ∧ (s.checkArrivals).currentTime = s.currentTime
    ∧ (s.checkArrivals).ganttChart = s.ganttChart := by
  unfold Sched.checkArrivals
  have := foldl_proj
    (fun s : Sched =>
      (s.contextSwitchOverhead, s.currentTime, s.ganttChart))
    (fun acc i =>
      match findProc acc.processes i with
      | some p =>
          if p.state == PState.NEW && decide (p.arrivalTime ≤ acc.currentTime)
          then acc.admitOne i else acc
      | none => acc)
    (by
      intro s' a
      dsimp only
      repeat' split
      all_goals try rfl
      obtain ⟨h1, h2, h3⟩ := admitOne_frameG s' a
      rw [h1, h2, h3])
    (s.processes.map Process.pid) s
  exact ⟨congrArg (fun x => x.1) this, congrArg (fun x => x.2.1) this,
    congrArg (fun x => x.2.2) this⟩

theorem checkIOCompletions_frameG (s : Sched) :
    (s.checkIOCompletions).contextSwitchOverhead = s.contextSwitchOverhead
    ∧ (s.checkIOCompletions).currentTime = s.currentTime
    ∧ (s.checkIOCompletions).ganttChart = s.ganttChart := by
  unfold Sched.checkIOCompletions
  dsimp only
  have := foldl_proj
    (fun s : Sched =>
      (s.contextSwitchOverhead, s.currentTime, s.ganttChart))
    (fun acc i =>
      { acc with
        waitingQueue := acc.waitingQueue.filter fun j => j != i
        processes := updProc acc.processes i fun p =>
          (p.setState PState.READY acc.currentTime).2
        readyQueue := acc.readyQueue ++ [i] })
    (fun s' a => rfl)
  exact ⟨congrArg (fun x => x.1) (this _ _),
    congrArg (fun x => x.2.1) (this _ _),
    congrArg (fun x => x.2.2) (this _ _)⟩

theorem injectIOInterrupt_frameG (s : Sched) (d : Int) :
    (s.injectIOInterrupt d).contextSwitchOverhead = s.contextSwitchOverhead
    ∧ (s.injectIOInterrupt d).currentTime = s.currentTime
    ∧ (s.injectIOInterrupt d).ganttChart = s.ganttChart := by
  unfold Sched.injectIOInterrupt
  dsimp only
  repeat' split
  all_goals exact ⟨rfl, rfl, rfl⟩

theorem handlePreemption_frameG (s : Sched) :
    (s.handlePreemption).contextSwitchOverhead = s.contextSwitchOverhead
    ∧ (s.handlePreemption).currentTime = s.currentTime
    ∧ (s.handlePreemption).ganttChart = s.ganttChart := by
  unfold Sched.handlePreemption
  dsimp only
  repeat' split
  all_goals exact ⟨rfl, rfl, rfl⟩

theorem completeRunning_frameG (s : Sched) (i : Nat) :
    (s.completeRunning i).contextSwitchOverhead = s.contextSwitchOverhead
    ∧ (s.completeRunning i).currentTime = s.currentTime
    ∧ (s.completeRunning i).ganttChart = s.ganttChart :=
  ⟨rfl, rfl, rfl⟩

theorem maybePreempt_frameG (s : Sched) (i : Nat) :
    (s.maybePreempt i).contextSwitchOverhead = s.contextSwitchOverhead
    ∧ (s.maybePreempt i).currentTime = s.currentTime
    ∧ (s.maybePreempt i).ganttChart = s.ganttChart := by
  unfold Sched.maybePreempt
  repeat' split
  all_goals try exact ⟨rfl, rfl, rfl⟩
  all_goals apply handlePreemption_frameG

theorem killProcess_frameG (s : Sched) (i : Nat) :
    (s.killProcess i).contextSwitchOverhead = s.contextSwitchOverhead
    ∧ (s.killProcess i).currentTime = s.currentTime
    ∧ (s.killProcess i).ganttChart = s.ganttChart := by
  unfold Sched.killProcess
  dsimp only
  repeat' split
  all_goals exact ⟨rfl, rfl, rfl⟩

theorem chainFrom_append (ov : Int) (e : GanttEntry) :
    ∀ (l : List GanttEntry) (t u : Int), chainFrom ov t l = some u →
      e.startTime = u → e.endTime = u + ganttDur ov e →
      chainFrom ov t (l ++ [e]) = some e.endTime := by
  intro l
  induction l with
  | nil =>
      intro t u hc h1 h2
      simp only [chainFrom, Option.some.injEq] at hc
      subst hc
      simp only [List.nil_append, chainFrom]
      rw [if_pos ⟨h1, h2⟩]
  | cons a as ih =>
      intro t u hc h1 h2
      simp only [chainFrom] at hc
      by_cases ha : a.startTime = t ∧ a.endTime = t + ganttDur ov a
      · rw [if_pos ha] at hc
        simp only [List.cons_append, chainFrom]
        rw [if_pos ha]
        exact ih a.endTime u hc h1 h2
      · rw [if_neg ha] at hc
        cases hc

theorem ganttInv_start : ganttInv Sched.start := rfl

theorem performContextSwitch_inv (s : Sched) (h : ganttInv s) :
    ganttInv s.performContextSwitch := by
  unfold ganttInv Sched.performContextSwitch at *
  dsimp only
  exact chainFrom_append _ _ _ _ _ h rfl rfl

theorem dispatch_inv (s : Sched) (h : ganttInv s) : ganttInv s.dispatch := by
  unfold Sched.dispatch
  by_cases hc : (s.runningProcess == none && !s.readyQueue.isEmpty) = true
  · rw [if_pos hc]
    cases hst : s.strategy with
    | none => exact h
    | some st =>
        dsimp only
        rcases hsel : st.selectNext (s.readyQueue.filterMap
          (findProc s.processes)) s.currentTime with ⟨sel, st1⟩
        cases sel with
        | none => exact h
        | some p =>
            dsimp only
            unfold ganttInv at *
            dsimp only
            exact chainFrom_append _ _ _ _ _ h rfl rfl
  · rw [if_neg hc]
    exact h

theorem execPhase_inv (s : Sched) (o : StepOracle) (h : ganttInv s) :
    ganttInv (s.execPhase o) := by
  unfold Sched.execPhase
  cases hr : s.runningProcess with
  | none =>
      unfold ganttInv at *
      dsimp only
      exact chainFrom_append _ _ _ _ _ h rfl rfl
  | some i =>
      dsimp only
      cases hf : findProc s.processes i with
      | none => exact h
      | some p =>
          dsimp only
          split
          · refine ganttInv_of_frame (completeRunning_frameG _ _).1
              (completeRunning_frameG _ _).2.1
              (completeRunning_frameG _ _).2.2 ?_
            unfold ganttInv at *
            exact chainFrom_append _ _ _ _ _ h rfl rfl
          · split
            · refine ganttInv_of_frame (injectIOInterrupt_frameG _ _).1
                (injectIOInterrupt_frameG _ _).2.1
                (injectIOInterrupt_frameG _ _).2.2 ?_
              unfold ganttInv at *
              exact chainFrom_append _ _ _ _ _ h rfl rfl
            · refine ganttInv_of_frame (maybePreempt_frameG _ _).1
                (maybePreempt_frameG _ _).2.1
                (maybePreempt_frameG _ _).2.2 ?_
              unfold ganttInv at *
              exact chainFrom_append _ _ _ _ _ h rfl rfl

theorem step_inv (s : Sched) (o : StepOracle) (h : ganttInv s) :
    ganttInv (s.step o) := by
  unfold Sched.step
  cases hst : s.strategy with
  | none => exact h
  | some st =>
      dsimp only
      apply execPhase_inv
      apply dispatch_inv
      refine ganttInv_of_frame (checkIOCompletions_frameG _).1
        (checkIOCompletions_frameG _).2.1 (checkIOCompletions_frameG _).2.2 ?_
      refine ganttInv_of_frame (checkArrivals_frameG _).1
        (checkArrivals_frameG _).2.1 (checkArrivals_frameG _).2.2 ?_
      exact h

theorem reset_inv (s : Sched) : ganttInv s.reset := by
  unfold Sched.reset
  refine ganttInv_of_frame (checkArrivals_frameG _).1
    (checkArrivals_frameG _).2.1 (checkArrivals_frameG _).2.2 ?_
  unfold ganttInv
  rfl

theorem reachable_ganttInv (s : Sched) (h : Reachable s) : ganttInv s := by
  induction h with
  | start => exact ganttInv_start
  | addProcess s i c _ ih =>
      unfold Sched.addProcess
      dsimp only
      split
      · refine ganttInv_of_frame (admitOne_frameG _ _).1
          (admitOne_frameG _ _).2.1 (admitOne_frameG _ _).2.2 ?_
        exact ih
      · exact ih
  | setStrategy s st _ ih =>
      unfold Sched.setStrategy
      dsimp only
      repeat' split
      all_goals exact ih
  | step s o _ ih => exact step_inv s o ih
  | killProcess s i _ ih =>
      exact ganttInv_of_frame (killProcess_frameG s i).1
        (killProcess_frameG s i).2.1 (killProcess_frameG s i).2.2 ih
  | injectIOInterrupt s d _ ih =>
      exact ganttInv_of_frame (injectIOInterrupt_frameG s d).1
        (injectIOInterrupt_frameG s d).2.1
        (injectIOInterrupt_frameG s d).2.2 ih
  | reset s _ _ => exact reset_inv s
  | clear s _ _ => exact reset_inv _

theorem chainFrom_props (ov : Int) :
    ∀ (l : List GanttEntry) (t0 T : Int), chainFrom ov t0 l = some T →
      (∀ e ∈ l, e.endTime = e.startTime + ganttDur ov e)
      ∧ (∀ hd, l.head? = some hd → hd.startTime = t0)
      ∧ l.Chain' (fun a b => b.startTime = a.endTime)
      ∧ (∀ lst, l.getLast? = some lst → lst.endTime = T) := by
  intro l
  induction l with
  | nil =>
      intro t0 T _
      refine ⟨by simp, by simp, List.chain'_nil, by simp⟩
  | cons a as ih =>
      intro t0 T hc
      simp only [chainFrom] at hc
      by_cases ha : a.startTime = t0 ∧ a.endTime = t0 + ganttDur ov a
      · rw [if_pos ha] at hc
        obtain ⟨hdur, hhd, hch, hlast⟩ := ih a.endTime T hc
        refine ⟨?_, ?_, ?_, ?_⟩
        · intro e he
          rcases List.mem_cons.mp he with rfl | he
          · rw [ha.2, ha.1]
          · exact hdur e he
        · intro hd hhd'
          simp only [List.head?_cons, Option.some.injEq] at hhd'
          rw [← hhd']
          exact ha.1
        · rw [List.chain'_cons']
          exact ⟨fun y hy => hhd y hy, hch⟩
        · intro lst hlst
          cases as with
          | nil =>
              simp only [List.getLast?_singleton, Option.some.injEq] at hlst
              simp only [chainFrom, Option.some.injEq] at hc
              rw [← hlst, ← hc]
          | cons b bs =>
              rw [List.getLast?_cons_cons] at hlst
              exact hlast lst hlst
      · rw [if_neg ha] at hc
        cases hc

/-- Claim C10. -/
theorem gantt_partitions_time (s : Sched) (h : Reachable s) :
    (∀ e ∈ s.ganttChart,
        e.endTime = e.startTime + ganttDur s.contextSwitchOverhead e)
    ∧ (∀ hd, s.ganttChart.head? = some hd → hd.startTime = 0)
    ∧ s.ganttChart.Chain' (fun a b => b.startTime = a.endTime)
    ∧ (∀ lst, s.ganttChart.getLast? = some lst
          → lst.endTime = s.currentTime) :=
  chainFrom_props s.contextSwitchOverhead s.ganttChart 0 s.currentTime
    (reachable_ganttInv s h)

/-- Witness for claim C10 at the concrete reachable state runningScenario
(FCFS, one process, one executed step: a context-switch slot followed by an
execution slot). -/
theorem gantt_partitions_time_witness :
    (∀ e ∈ runningScenario.ganttChart,
        e.endTime = e.startTime
          + ganttDur runningScenario.contextSwitchOverhead e)
    ∧ (∀ hd, runningScenario.ganttChart.head? = some hd → hd.startTime = 0)
    ∧ runningScenario.ganttChart.Chain' (fun a b => b.startTime = a.endTime)
    ∧ (∀ lst, runningScenario.ganttChart.getLast? = some lst
          → lst.endTime = runningScenario.currentTime) :=
  gantt_partitions_time runningScenario
    (Reachable.step _ quietOracle
      (Reachable.addProcess _ 1 { burstTime := 5 }
        (Reachable.setStrategy _ Strategy.FCFS Reachable.start)))

theorem resetRun_idem (p : Process) : p.resetRun.resetRun = p.resetRun := rfl

theorem resetRun_setState (p : Process) (ns : PState) (t : Int) :
    ((p.setState ns t).2).resetRun = p.resetRun := by
  unfold Process.setState
  by_cases hv : validTransition p.state ns = true
  · rw [if_pos hv]
    cases ns
    all_goals try rfl
    all_goals dsimp only
    all_goals cases hw : p.currentWaitStart <;> simp only [hw] <;> split <;> rfl
  · rw [if_neg hv]

theorem map_resetRun_updProc (ps : List Process) (i : Nat)
    (f : Process → Process) (hf : ∀ q, (f q).resetRun = q.resetRun) :
    (updProc ps i f).map Process.resetRun = ps.map Process.resetRun := by
  induction ps with
  | nil => rfl
  | cons p ps ih =>
      simp only [updProc, List.map_cons] at *
      rw [ih]
      by_cases h : (p.pid == i) = true
      · rw [if_pos h, hf]
      · rw [if_neg h]

theorem admitOne_mapReset (s : Sched) (i : Nat) :
    ((s.admitOne i).processes).map Process.resetRun
      = s.processes.map Process.resetRun := by
  unfold Sched.admitOne
  dsimp only
  repeat' split
  all_goals try rfl
  all_goals dsimp only
  all_goals first
    | rw [map_resetRun_updProc _ _
          (fun q => ({ q with queueLevel := 0, quantumUsed := 0 } : Process))
          (fun q => rfl),
        map_resetRun_updProc _ _ _
          (fun q => resetRun_setState q PState.READY _)]
    | rw [map_resetRun_updProc _ _ _
          (fun q => resetRun_setState q PState.READY _)]

theorem checkArrivals_mapReset (s : Sched) :
    ((s.checkArrivals).processes).map Process.resetRun
      = s.processes.map Process.resetRun := by
  unfold Sched.checkArrivals
  apply foldl_proj (fun s => s.processes.map Process.resetRun)
  intro s' a
  dsimp only
  repeat' split
  all_goals try rfl
  all_goals apply admitOne_mapReset

theorem checkArrivals_overhead (s : Sched) :
    (s.checkArrivals).contextSwitchOverhead = s.contextSwitchOverhead :=
  (checkArrivals_frameG s).1

theorem map_resetRun_map_resetRun (ps : List Process) :
    (ps.map Process.resetRun).map Process.resetRun
      = ps.map Process.resetRun := by
  rw [List.map_map]
  exact List.map_congr_left fun a _ => resetRun_idem a

theorem reset_reset_eq (s : Sched) : s.reset.reset = s.reset := by
  unfold Sched.reset
  congr 1
  rw [checkArrivals_strategy, checkArrivals_overhead, checkArrivals_mapReset]
  dsimp only
  rw [map_resetRun_map_resetRun]

theorem admitOne_frameR (s : Sched) (i : Nat) :
    (s.admitOne i).currentTime = s.currentTime
    ∧ (s.admitOne i).ganttChart = s.ganttChart
    ∧ (s.admitOne i).metrics = s.metrics
    ∧ (s.admitOne i).runningProcess = s.runningProcess := by
  unfold Sched.admitOne
  dsimp only
  repeat' split
  all_goals exact ⟨rfl, rfl, rfl, rfl⟩

theorem checkArrivals_frameR (s : Sched) :
    (s.checkArrivals).currentTime = s.currentTime
    ∧ (s.checkArrivals).ganttChart = s.ganttChart
    ∧ (s.checkArrivals).metrics = s.metrics
    ∧ (s.checkArrivals).runningProcess = s.runningProcess := by
  unfold Sched.checkArrivals
  have := foldl_proj
    (fun s : Sched =>
      (s.currentTime, s.ganttChart, s.metrics, s.runningProcess))
    (fun acc i =>
      match findProc acc.processes i with
      | some p =>
          if p.state == PState.NEW && decide (p.arrivalTime ≤ acc.currentTime)
          then acc.admitOne i else acc
      | none => acc)
    (by
      intro s' a
      dsimp only
      repeat' split
      all_goals try rfl
      obtain ⟨h1, h2, h3, h4⟩ := admitOne_frameR s' a
      rw [h1, h2, h3, h4])
    (s.processes.map Process.pid) s
  exact ⟨congrArg (fun x => x.1) this, congrArg (fun x => x.2.1) this,
    congrArg (fun x => x.2.2.1) this, congrArg (fun x => x.2.2.2) this⟩

/-- Claim C9: reset is idempotent, and a reset state has clock 0, empty
trace, zeroed counters and a free CPU (each process re-admitted to READY
by the same in-order arrival scan both times). -/
theorem reset_idempotent_full (s : Sched) :
    s.reset.reset = s.reset
    ∧ s.reset.currentTime = 0
    ∧ s.reset.ganttChart = []
    ∧ s.reset.metrics = { totalIdleTime := 0, totalContextSwitches := 0,
                          processesCompleted := 0 }
    ∧ s.reset.runningProcess = none := by
  refine ⟨reset_reset_eq s, ?_, ?_, ?_, ?_⟩
  all_goals unfold Sched.reset
  · exact (checkArrivals_frameR _).1
  · exact (checkArrivals_frameR _).2.1
  · exact (checkArrivals_frameR _).2.2.1
  · exact (checkArrivals_frameR _).2.2.2
